import Mathlib

/-!
Shallow embedding of `src/utils/chembl_data_processing.py` from the
molecular-message-passing repository.

A pandas `DataFrame` is modelled as a `Table`: a list of column names
(`header`) and a list of positional rows, each row a list of `Value` cells
aligned with the header.  Cell values are strings, numbers (pandas floats
modelled as rationals), flat string-to-string mappings (the shape of the
`molecule_structures` dictionaries), or the missing value `NaN`/`None`.
Fallible pandas operations are embedded as `Except PError Table`.
-/

/-- Cell value of a table: string, number (a pandas float, modelled as a
rational), a flat string-keyed mapping of strings (the shape held by the
`molecule_structures` column), or a missing value (NaN/None). -/
inductive Value where
  | str (s : String)
  | num (q : ℚ)
  | dict (entries : List (String × String))
  | missing
deriving DecidableEq, Repr

/-- Python exception kinds raised by the embedded code paths. -/
inductive PError where
  | keyError (s : String)
  | assertionError
  | valueError
  | typeError
  | parseError
  | indexError
deriving DecidableEq, Repr

/-- A pandas DataFrame: named columns and positional rows.  Each row is a
list of cells aligned with `header`. -/
structure Table where
  header : List String
  rows : List (List Value)
deriving DecidableEq, Repr

/-- Rows are rectangular: every row has one cell per column. -/
def Table.wf (t : Table) : Prop := ∀ r ∈ t.rows, r.length = t.header.length

instance (t : Table) : Decidable t.wf := by
  unfold Table.wf; infer_instance

/-- Cell of a row under a header, looked up by column name (first matching
column, as pandas label lookup on unique labels). -/
def cellOf (header : List String) (r : List Value) (c : String) : Option Value :=
  match header.findIdx? (fun h => h == c) with
  | some i => r.get? i
  | none => none

/-- Whether a cell is a missing value (pandas `isna`). -/
def isMissingB : Value → Bool
  | .missing => true
  | _ => false

/-- Remove the cells of every column named `c`, walking header and row in
parallel (the positional effect of `df.drop(c, axis=1)` on one row). -/
def dropCells (c : String) : List String → List Value → List Value
  | [], vs => vs
  | _ :: _, [] => []
  | h :: hs, v :: vs =>
      if h = c then dropCells c hs vs else v :: dropCells c hs vs

/-- Drop the column named `c` from a table (`df.drop(c, axis=1)`). -/
def dropCol (c : String) (t : Table) : Table :=
  ⟨t.header.filter (fun h => decide (h ≠ c)), t.rows.map (dropCells c t.header)⟩

/-- Sequence a fallible function over a list, stopping at the first error. -/
def traverseE (f : α → Except PError β) : List α → Except PError (List β)
  | [] => .ok []
  | a :: as =>
      match f a, traverseE f as with
      | .ok b, .ok bs => .ok (b :: bs)
      | .error e, _ => .error e
      | _, .error e => .error e

/-- Digit test on characters. -/
def isDigitChar (c : Char) : Bool := 48 ≤ c.toNat && c.toNat ≤ 57

/-- Value of a digit string. -/
def digitsToNat (l : List Char) : ℕ :=
  l.foldl (fun acc c => acc * 10 + (c.toNat - 48)) 0

/-- Decimal-literal parsing, modelling the `float(...)` conversion that
pandas `astype("float64")` performs on each string cell: an optional sign,
an integer part and an optional fractional part.  Returns `none` where
Python raises `ValueError`. -/
def parseDecimal (s : String) : Option ℚ :=
  let cs := s.data
  let signAndRest : ℤ × List Char :=
    match cs with
    | c :: rest =>
        if c = '-' then (-1, rest) else if c = '+' then (1, rest) else (1, cs)
    | [] => (1, cs)
  let sign := signAndRest.1
  let cs1 := signAndRest.2
  let intPart := cs1.takeWhile isDigitChar
  let rest := cs1.dropWhile isDigitChar
  match rest with
  | [] => if intPart.isEmpty then none else some (mkRat (sign * digitsToNat intPart) 1)
  | c :: frac =>
      if c = '.' && frac.all isDigitChar && !(intPart.isEmpty && frac.isEmpty) then
        some (mkRat (sign * (digitsToNat intPart * 10 ^ frac.length + digitsToNat frac))
                (10 ^ frac.length))
      else none

/-- Coercion of one cell to float64: numbers stay, NaN stays NaN, strings
are parsed as decimal literals, anything else fails. -/
def coerceFloat : Value → Option Value
  | .num q => some (.num q)
  | .missing => some .missing
  | .str s => (parseDecimal s).map .num
  | .dict _ => none

/-- Coerce the cells of a row sitting at the column positions `idxs`
(current position is `i`), failing if any such cell is not float-coercible. -/
def coerceRow (idxs : List ℕ) : ℕ → List Value → Option (List Value)
  | _, [] => some []
  | i, v :: vs =>
      if i ∈ idxs then
        match coerceFloat v with
        | some w => (coerceRow idxs (i + 1) vs).map (w :: ·)
        | none => none
      else (coerceRow idxs (i + 1) vs).map (v :: ·)

/-- Sequence an option-valued function over a list. -/
def traverseO (f : α → Option β) : List α → Option (List β)
  | [] => some []
  | a :: as =>
      match f a, traverseO f as with
      | some b, some bs => some (b :: bs)
      | _, none => none
      | none, _ => none

/-- Positions of the named columns inside a header. -/
def colIdxs (cols : List String) (header : List String) : List ℕ :=
  cols.filterMap (fun c => header.findIdx? (fun h => h == c))

/-- Positions of the float-coerced columns: none when no coercion was
requested. -/
def coercedIdxs (columns_to_float : Option (List String)) (header : List String) : List ℕ :=
  match columns_to_float with
  | none => []
  | some cols => colIdxs cols header

/-- Step 1 of the cleaner, `df.astype({column: "float64" for column in
columns_to_float})`: raises `KeyError` if a listed column is absent and
`ValueError` if a value cannot be converted. -/
def astypeFloat (cols : List String) (t : Table) : Except PError Table :=
  if cols.all (fun c => t.header.contains c) then
    match traverseO (coerceRow (colIdxs cols t.header) 0) t.rows with
    | some rs => .ok ⟨t.header, rs⟩
    | none => .error .valueError
  else .error (.keyError "column not found")

/-- Step 2 of the cleaner, `df.dropna(axis=0, how="any")`: keep exactly the
rows with no missing cell. -/
def dropnaT (t : Table) : Table :=
  ⟨t.header, t.rows.filter (fun r => !(r.any isMissingB))⟩

/-- Step 3 of the cleaner: when `standard_unit` is given and differs from
`"all"`, assert the `standard_units` column exists and keep the rows whose
`standard_units` cell equals the given unit
(`df[df["standard_units"] == standard_unit]`). -/
def unitFilterStep (standard_unit : Option String) (t : Table) : Except PError Table :=
  match standard_unit with
  | none => .ok t
  | some u =>
      if u = "all" then .ok t
      else if "standard_units" ∈ t.header then
        .ok ⟨t.header,
             t.rows.filter (fun r => decide (cellOf t.header r "standard_units" = some (.str u)))⟩
      else .error .assertionError

/-- Keep each row whose key cell (position `i`) has not been seen before:
the recursion behind `df.drop_duplicates(key, keep="first")`. -/
def keepFirst (i : ℕ) (seen : List (Option Value)) : List (List Value) → List (List Value)
  | [] => []
  | r :: rs =>
      if r.get? i ∈ seen then keepFirst i seen rs
      else r :: keepFirst i (r.get? i :: seen) rs

/-- Step 4 of the cleaner, `df.drop_duplicates("molecule_chembl_id",
keep="first")`: `KeyError` if the key column is absent, otherwise keep only
the first row for every key value. -/
def dropDuplicatesStep (t : Table) : Except PError Table :=
  match t.header.findIdx? (fun h => h == "molecule_chembl_id") with
  | some i => .ok ⟨t.header, keepFirst i [] t.rows⟩
  | none => .error (.keyError "molecule_chembl_id")

/-- Step 5 of the cleaner, `df.reset_index(drop=True)`: the positional-row
model carries no separate index, so renumbering is the identity on the
observable table. -/
def resetIndexT (t : Table) : Table := t

/-- The Table Cleaner `preprocess_queried_dataset(df, columns_to_float,
drop_na, drop_duplicates, reset_index, standard_unit)`: float coercion,
NaN removal, unit filtering, deduplication and reindexing, in this order,
each step conditional on its flag or argument. -/
def preprocess_queried_dataset (df : Table) (columns_to_float : Option (List String))
    (drop_na : Bool) (drop_duplicates : Bool) (reset_index : Bool)
    (standard_unit : Option String) : Except PError Table :=
  let step1 : Except PError Table :=
    match columns_to_float with
    | none => .ok df
    | some cs => astypeFloat cs df
  match step1 with
  | .error e => .error e
  | .ok d1 =>
      let d2 := if drop_na then dropnaT d1 else d1
      match unitFilterStep standard_unit d2 with
      | .error e => .error e
      | .ok d3 =>
          match (if drop_duplicates then dropDuplicatesStep d3 else .ok d3) with
          | .error e => .error e
          | .ok d4 => .ok (if reset_index then resetIndexT d4 else d4)

/-- The double-quote character. -/
def quoteChar : Char := Char.ofNat 34

/-- The opening-brace character. -/
def lbraceChar : Char := Char.ofNat 123

/-- The closing-brace character. -/
def rbraceChar : Char := Char.ofNat 125

/-- Skip blanks. -/
def skipWs (l : List Char) : List Char := l.dropWhile (fun c => c = ' ')

/-- Parse a double-quoted string literal (no escape sequences), returning
its body and the remaining input. -/
def parseStrLit : List Char → Option (String × List Char)
  | [] => none
  | c :: rest =>
      if c = quoteChar then
        let body := rest.takeWhile (fun d => !(d = quoteChar))
        match rest.dropWhile (fun d => !(d = quoteChar)) with
        | d :: rest2 => if d = quoteChar then some (String.mk body, rest2) else none
        | [] => none
      else none

/-- Parse one `"key": "value"` entry of a dict display. -/
def parseEntry (l : List Char) : Option ((String × String) × List Char) :=
  match parseStrLit (skipWs l) with
  | none => none
  | some (k, rest) =>
      match skipWs rest with
      | c :: rest2 =>
          if c = ':' then
            match parseStrLit (skipWs rest2) with
            | some (v, rest3) => some ((k, v), rest3)
            | none => none
          else none
      | [] => none

/-- Parse the comma-separated entries of a dict display up to and including
its closing brace (fuelled recursion). -/
def parseEntries : ℕ → List Char → Option (List (String × String) × List Char)
  | 0, _ => none
  | fuel + 1, l =>
      match parseEntry l with
      | none => none
      | some (kv, rest) =>
          match skipWs rest with
          | c :: rest2 =>
              if c = ',' then
                match parseEntries fuel rest2 with
                | some (kvs, rest3) => some (kv :: kvs, rest3)
                | none => none
              else if c = rbraceChar then some ([kv], rest2)
              else none
          | [] => none

/-- Models `ast.literal_eval` restricted to flat dict displays with
double-quoted string keys and values — the shape held by the serialized
`molecule_structures` column.  Returns `none` where Python raises. -/
def literal_eval (s : String) : Option (List (String × String)) :=
  match skipWs s.data with
  | [] => none
  | c :: rest =>
      if c = lbraceChar then
        match skipWs rest with
        | [] => none
        | d :: rest2 =>
            if d = rbraceChar then
              if (skipWs rest2).isEmpty then some [] else none
            else
              match parseEntries (s.length + 1) rest with
              | some (kvs, rest3) => if (skipWs rest3).isEmpty then some kvs else none
              | none => none
      else none

/-- Parse one `molecule_structures` cell (position `i` of the row) from its
serialized text with `literal_eval`, as `df.molecule_structures.apply(lambda
x: ast.literal_eval(x))` does per cell; non-string cells and malformed text
raise. -/
def parseStructCell (i : ℕ) (r : List Value) : Except PError (List Value) :=
  match r.getD i Value.missing with
  | .str s =>
      match literal_eval s with
      | some entries => .ok (r.set i (.dict entries))
      | none => .error .parseError
  | _ => .error .parseError

/-- Extract `compounds["molecule_structures"]["canonical_smiles"]` from one
row: `TypeError` if the cell is not a mapping, `KeyError` if the nested key
is absent. -/
def smilesOfRow (i : ℕ) (r : List Value) : Except PError Value :=
  match r.getD i Value.missing with
  | .dict entries =>
      match entries.lookup "canonical_smiles" with
      | some smi => .ok (.str smi)
      | none => .error (.keyError "canonical_smiles")
  | _ => .error .typeError

/-- The Structure Flattener up to (but not including) its final `dropna`:
assert the `molecule_structures` column, inspect the first row's cell to
decide whether the column needs parsing, build the `canonical_smiles`
column from the nested field, and drop the `molecule_structures` column. -/
def flattenCore (df : Table) : Except PError Table :=
  match df.header.findIdx? (fun h => h == "molecule_structures") with
  | none => .error .assertionError
  | some i =>
      match df.rows with
      | [] => .error .indexError
      | r0 :: _ =>
          match (match r0.getD i Value.missing with
                 | .dict _ => (.ok df.rows : Except PError (List (List Value)))
                 | _ => traverseE (parseStructCell i) df.rows) with
          | .error e => .error e
          | .ok rows1 =>
              match traverseE (smilesOfRow i) rows1 with
              | .error e => .error e
              | .ok smiles =>
                  match df.header.findIdx? (fun h => h == "canonical_smiles") with
                  | some j =>
                      .ok (dropCol "molecule_structures"
                        ⟨df.header, List.zipWith (fun r v => r.set j v) rows1 smiles⟩)
                  | none =>
                      .ok (dropCol "molecule_structures"
                        ⟨df.header ++ ["canonical_smiles"],
                         List.zipWith (fun r v => r ++ [v]) rows1 smiles⟩)

/-- The Structure Flattener
`extract_smiles_from_molecular_representation(df)`: `flattenCore` followed
by the final `df.dropna(axis=0, how="any")`. -/
def extract_smiles_from_molecular_representation (df : Table) : Except PError Table :=
  match flattenCore df with
  | .error e => .error e
  | .ok t2 => .ok ⟨t2.header, t2.rows.filter (fun r => !(r.any isMissingB))⟩

/-- The single-quote character, used by Python reprs. -/
def squoteChar : Char := Char.ofNat 39

/-- A string in Python single-quoted repr form. -/
def pyQuote (s : String) : String :=
  String.mk (squoteChar :: (s.data ++ [squoteChar]))

/-- The Python `repr` of a flat string-keyed dict, which is what
`df.to_csv` writes for a mapping-valued cell. -/
def pyDictRepr (entries : List (String × String)) : String :=
  "\x7b" ++ String.intercalate ", "
      (entries.map (fun p => pyQuote p.1 ++ ": " ++ pyQuote p.2)) ++ "\x7d"

/-- Decimal rendering of a float cell as `to_csv` writes it: integral
values with a trailing `.0`, other finite decimals with their shortest
exact fraction part.  Rationals with no finite decimal expansion cannot
occur as float-cell values; they fall back to the `Rat` printing. -/
def ratToCsvString (q : ℚ) : String :=
  if q.den = 1 then toString q.num ++ ".0"
  else
    match (List.range 20).find? (fun k => (10 ^ (k + 1)) % q.den = 0) with
    | some k =>
        let e := k + 1
        let scaled : ℤ := q.num * ((10 ^ e : ℤ) / (q.den : ℤ))
        let n := scaled.natAbs
        let fracStr := toString (n % 10 ^ e)
        let pad := String.mk (List.replicate (e - fracStr.length) '0')
        (if q.num < 0 then "-" else "") ++ toString (n / 10 ^ e) ++ "." ++ pad ++ fracStr
    | none => toString q

/-- The text `df.to_csv` writes for one cell: strings verbatim (CSV
quoting of delimiter-bearing text round-trips and is not modelled),
floats as decimals, mapping values as their Python repr, NaN as empty. -/
def csvWriteCell : Value → String
  | .str s => s
  | .num q => ratToCsvString q
  | .dict entries => pyDictRepr entries
  | .missing => ""

/-- The cell `pd.read_csv` yields from one text field: empty text becomes
NaN, numeric text becomes a float, anything else stays a string.  Pandas
infers dtypes per column rather than per cell; the two coincide on columns
of homogeneous kind, the only case the theorems below exercise. -/
def csvReadCell (s : String) : Value :=
  if s = "" then .missing
  else
    match parseDecimal s with
    | some q => .num q
    | none => .str s

/-- Serialize a table to its cache file and model the file by the table
`pd.read_csv` will parse back from it: `df.to_csv(path)` writes the
default index 0..n-1 as an unnamed first column (surfacing as
`Unnamed: 0` on read) and every cell as text, and the re-read re-types
each cell with `csvReadCell` — so mapping cells come back as repr text
and numeric text comes back as floats. -/
def saveCsv (df : Table) : Table :=
  ⟨"Unnamed: 0" :: df.header,
   df.rows.enum.map (fun p =>
     csvReadCell (toString p.1) :: p.2.map (fun v => csvReadCell (csvWriteCell v)))⟩

/-- The cache-hit read path: `pd.read_csv(path)` (modelled as yielding the
stored table) followed by `df.drop(["Unnamed: 0"], axis=1)`, which raises
`KeyError` when no such column exists. -/
def readCachedCsv (file : Table) : Except PError Table :=
  if "Unnamed: 0" ∈ file.header then .ok (dropCol "Unnamed: 0" file)
  else .error (.keyError "Unnamed: 0")

/-- State of one cache file slot: the serialized table on disk (if the file
exists) and how many times the remote query collaborator has been
materialized for this slot. -/
structure CacheState where
  file : Option Table
  fetchCount : ℕ
deriving DecidableEq, Repr

/-- The Cache Loader `retrieve_or_create_dataframe_from_query(query, ...,
save_df)`: read and clean the cached file when it exists, otherwise
materialize the query (`pd.DataFrame.from_records(query)`, counted as one
remote fetch) and, when `save_df`, write it to the cache file. -/
def retrieve_or_create_dataframe_from_query (query : Table) (save_df : Bool)
    (st : CacheState) : Except PError (Table × CacheState) :=
  match st.file with
  | some f =>
      match readCachedCsv f with
      | .ok df => .ok (df, st)
      | .error e => .error e
  | none =>
      let df := query
      if save_df then .ok (df, ⟨some (saveCsv df), st.fetchCount + 1⟩)
      else .ok (df, ⟨none, st.fetchCount + 1⟩)

/-- Column projection `df[[c1, ..., ck]]`: `KeyError` if a requested column
is absent, otherwise the requested columns in the requested order. -/
def projectCols (cs : List String) (t : Table) : Except PError Table :=
  if cs.all (fun c => t.header.contains c) then
    .ok ⟨cs, t.rows.map (fun r => cs.map (fun c => (cellOf t.header r c).getD Value.missing))⟩
  else .error (.keyError "column not found")

/-- Inner join `pd.merge(l, r, on=key)`: the left columns followed by the
right columns minus the key, one output row per key-matching pair of input
rows.  Overlapping non-key column names (pandas suffixing) are outside the
model; the theorems assume the non-key columns are disjoint. -/
def pd_merge (l r : Table) (key : String) : Except PError Table :=
  if key ∈ l.header ∧ key ∈ r.header then
    .ok ⟨l.header ++ r.header.filter (fun c => decide (c ≠ key)),
         l.rows.flatMap (fun lr =>
           (r.rows.filter (fun rr =>
             decide (cellOf r.header rr key = cellOf l.header lr key))).map
             (fun rr => lr ++ dropCells key r.header rr))⟩
  else .error (.keyError key)

/-- The merge step of the Pipeline Orchestrator (lines 59–66 of the
source): project the cleaned bioactivity table to its three carried
columns, inner-join with the cleaned compound table on
`molecule_chembl_id`, and reset the row index. -/
def mergeStep (bioactivities_df compounds_df : Table) : Except PError Table :=
  match projectCols ["molecule_chembl_id", "standard_value", "standard_units"] bioactivities_df with
  | .error e => .error e
  | .ok proj =>
      match pd_merge proj compounds_df "molecule_chembl_id" with
      | .error e => .error e
      | .ok merged_df => .ok (resetIndexT merged_df)

/-- The two cache slots used by one pipeline run. -/
structure PipelineFiles where
  bioactivities : CacheState
  compounds : CacheState
deriving DecidableEq, Repr

/-- The Pipeline Orchestrator `get_bioactivity_compound_data`: fetch and
clean the bioactivity table (float-coerce `standard_value`, unit `"nM"`),
fetch, clean and flatten the compound table, then merge on
`molecule_chembl_id`. -/
def get_bioactivity_compound_data (bioacitivity_query compound_query : Table)
    (files : PipelineFiles) : Except PError (Table × PipelineFiles) :=
  match retrieve_or_create_dataframe_from_query bioacitivity_query true files.bioactivities with
  | .error e => .error e
  | .ok (bdf0, bst) =>
      match preprocess_queried_dataset bdf0 (some ["standard_value"]) true true true (some "nM") with
      | .error e => .error e
      | .ok bioactivities_df =>
          match retrieve_or_create_dataframe_from_query compound_query true files.compounds with
          | .error e => .error e
          | .ok (cdf0, cst) =>
              match preprocess_queried_dataset cdf0 none true true true none with
              | .error e => .error e
              | .ok cdf1 =>
                  match extract_smiles_from_molecular_representation cdf1 with
                  | .error e => .error e
                  | .ok compounds_df =>
                      match mergeStep bioactivities_df compounds_df with
                      | .error e => .error e
                      | .ok merged_df => .ok (merged_df, ⟨bst, cst⟩)

/-! ### Instances and helper lemmas -/

instance {ε α : Type} [DecidableEq ε] [DecidableEq α] : DecidableEq (Except ε α) := fun a b =>
  match a, b with
  | .ok x, .ok y =>
      if h : x = y then .isTrue (by rw [h]) else .isFalse (by simp [h])
  | .error e, .error f =>
      if h : e = f then .isTrue (by rw [h]) else .isFalse (by simp [h])
  | .ok _, .error _ => .isFalse (by simp)
  | .error _, .ok _ => .isFalse (by simp)

lemma findIdx_of_mem {l : List String} {c : String} (h : c ∈ l) :
    ∃ i, l.findIdx? (fun x => x == c) = some i ∧ i < l.length := by
  induction l with
  | nil => simp at h
  | cons a l ih =>
      by_cases hac : a = c
      · exact ⟨0, by simp [List.findIdx?_cons, hac], by simp⟩
      · have hm : c ∈ l := by
          rcases List.mem_cons.mp h with h1 | h1
          · exact absurd h1.symm hac
          · exact h1
        obtain ⟨i, hi, hlt⟩ := ih hm
        refine ⟨i + 1, ?_, by simpa using Nat.succ_lt_succ hlt⟩
        simp [List.findIdx?_cons, hac, hi]

lemma findIdx_none_of_not_mem {l : List String} {c : String} (h : c ∉ l) :
    l.findIdx? (fun x => x == c) = none := by
  rw [List.findIdx?_eq_none_iff]
  intro a ha
  have hne : a ≠ c := fun hac => h (hac ▸ ha)
  simpa using hne

lemma dropCells_append {c : String} :
    ∀ (h1 : List String) (r1 : List Value) (h2 : List String) (r2 : List Value),
      r1.length = h1.length →
      dropCells c (h1 ++ h2) (r1 ++ r2) = dropCells c h1 r1 ++ dropCells c h2 r2 := by
  intro h1
  induction h1 with
  | nil =>
      intro r1 h2 r2 hlen
      have : r1 = [] := List.length_eq_zero.mp hlen
      subst this; rfl
  | cons h t ih =>
      intro r1 h2 r2 hlen
      cases r1 with
      | nil => simp at hlen
      | cons v vs =>
          have hlen' : vs.length = t.length := by simpa using hlen
          by_cases hc : h = c
          · simp [dropCells, hc, ih vs h2 r2 hlen']
          · simp [dropCells, hc, ih vs h2 r2 hlen']

lemma dropCells_length {c : String} :
    ∀ (hs : List String) (vs : List Value), vs.length = hs.length →
      (dropCells c hs vs).length = (hs.filter (fun x => decide (x ≠ c))).length := by
  intro hs
  induction hs with
  | nil =>
      intro vs hlen
      have : vs = [] := List.length_eq_zero.mp hlen
      subst this; rfl
  | cons h t ih =>
      intro vs hlen
      cases vs with
      | nil => simp at hlen
      | cons v vs =>
          have hlen' : vs.length = t.length := by simpa using hlen
          by_cases hc : h = c
          · simp [dropCells, hc, ih vs hlen']
          · simp [dropCells, hc, ih vs hlen']

lemma traverseO_ok {f : α → Option β} :
    ∀ {l : List α} {l' : List β}, traverseO f l = some l' →
      List.Forall₂ (fun a b => f a = some b) l l' := by
  intro l
  induction l with
  | nil =>
      intro l' h
      simp only [traverseO] at h
      cases h; exact List.Forall₂.nil
  | cons a as ih =>
      intro l' h
      simp only [traverseO] at h
      rcases hfa : f a with _ | b <;> rcases hrest : traverseO f as with _ | bs <;>
          rw [hfa, hrest] at h
      · exact Option.noConfusion h
      · exact Option.noConfusion h
      · exact Option.noConfusion h
      · cases h
        exact List.Forall₂.cons hfa (ih hrest)

lemma traverseE_ok {f : α → Except PError β} :
    ∀ {l : List α} {l' : List β}, traverseE f l = .ok l' →
      List.Forall₂ (fun a b => f a = .ok b) l l' := by
  intro l
  induction l with
  | nil =>
      intro l' h
      simp only [traverseE] at h
      cases h; exact List.Forall₂.nil
  | cons a as ih =>
      intro l' h
      simp only [traverseE] at h
      rcases hfa : f a with e | b <;> rcases hrest : traverseE f as with e | bs <;>
          rw [hfa, hrest] at h
      · exact Except.noConfusion h
      · exact Except.noConfusion h
      · exact Except.noConfusion h
      · cases h
        exact List.Forall₂.cons hfa (ih hrest)

lemma traverseE_ok_of_forall {f : α → Except PError β} :
    ∀ {l : List α}, (∀ a ∈ l, ∃ b, f a = .ok b) →
      ∃ l', traverseE f l = .ok l' := by
  intro l
  induction l with
  | nil => intro _; exact ⟨[], rfl⟩
  | cons a as ih =>
      intro h
      obtain ⟨b, hb⟩ := h a (List.mem_cons_self a as)
      obtain ⟨bs, hbs⟩ := ih (fun x hx => h x (List.mem_cons_of_mem a hx))
      exact ⟨b :: bs, by simp [traverseE, hb, hbs]⟩

lemma forall₂_mem_right {R : α → β → Prop} :
    ∀ {l : List α} {l' : List β}, List.Forall₂ R l l' → ∀ b ∈ l', ∃ a ∈ l, R a b := by
  intro l l' h
  induction h with
  | nil => simp
  | cons hab _ ih =>
      intro b hb
      rcases List.mem_cons.mp hb with rfl | hb'
      · exact ⟨_, List.mem_cons_self _ _, hab⟩
      · obtain ⟨a, ha, hr⟩ := ih b hb'
        exact ⟨a, List.mem_cons_of_mem _ ha, hr⟩

lemma coerceRow_length {idxs : List ℕ} :
    ∀ {i : ℕ} {r r' : List Value}, coerceRow idxs i r = some r' → r'.length = r.length := by
  intro i r
  induction r generalizing i with
  | nil =>
      intro r' h
      simp only [coerceRow] at h
      cases h; rfl
  | cons v vs ih =>
      intro r' h
      simp only [coerceRow] at h
      by_cases hmem : i ∈ idxs
      · rw [if_pos hmem] at h
        rcases hcf : coerceFloat v with _ | w <;> rw [hcf] at h
        · exact Option.noConfusion h
        · rcases hrest : coerceRow idxs (i + 1) vs with _ | vs' <;> rw [hrest] at h
          · exact Option.noConfusion h
          · cases h
            simp [ih hrest]
      · rw [if_neg hmem] at h
        rcases hrest : coerceRow idxs (i + 1) vs with _ | vs' <;> rw [hrest] at h
        · exact Option.noConfusion h
        · cases h
          simp [ih hrest]

lemma coerceRow_get {idxs : List ℕ} :
    ∀ {i : ℕ} {r r' : List Value}, coerceRow idxs i r = some r' →
      ∀ j : ℕ, (i + j) ∉ idxs → r'[j]? = r[j]? := by
  intro i r
  induction r generalizing i with
  | nil =>
      intro r' h j _
      simp only [coerceRow] at h
      cases h; rfl
  | cons v vs ih =>
      intro r' h j hj
      simp only [coerceRow] at h
      by_cases hmem : i ∈ idxs
      · rw [if_pos hmem] at h
        rcases hcf : coerceFloat v with _ | w <;> rw [hcf] at h
        · exact Option.noConfusion h
        · rcases hrest : coerceRow idxs (i + 1) vs with _ | vs' <;> rw [hrest] at h
          · exact Option.noConfusion h
          · cases h
            cases j with
            | zero => exact absurd hmem (by simpa using hj)
            | succ j' =>
                have : (i + 1) + j' ∉ idxs := by
                  have : i + (j' + 1) = (i + 1) + j' := by omega
                  rwa [this] at hj
                simpa using ih hrest j' this
      · rw [if_neg hmem] at h
        rcases hrest : coerceRow idxs (i + 1) vs with _ | vs' <;> rw [hrest] at h
        · exact Option.noConfusion h
        · cases h
          cases j with
          | zero => simp
          | succ j' =>
              have : (i + 1) + j' ∉ idxs := by
                have : i + (j' + 1) = (i + 1) + j' := by omega
                rwa [this] at hj
              simpa using ih hrest j' this

lemma astypeFloat_ok {cols : List String} {t t' : Table}
    (h : astypeFloat cols t = .ok t') :
    t'.header = t.header ∧
    List.Forall₂ (fun r r' => coerceRow (colIdxs cols t.header) 0 r = some r')
      t.rows t'.rows := by
  unfold astypeFloat at h
  by_cases hall : cols.all (fun c => t.header.contains c)
  · rw [if_pos hall] at h
    rcases htr : traverseO (coerceRow (colIdxs cols t.header) 0) t.rows with _ | rs <;>
      simp only [htr] at h
    · exact Except.noConfusion h
    · cases h
      exact ⟨rfl, traverseO_ok htr⟩
  · rw [if_neg hall] at h
    exact Except.noConfusion h

lemma keepFirst_sublist {i : ℕ} :
    ∀ (seen : List (Option Value)) (rows : List (List Value)),
      List.Sublist (keepFirst i seen rows) rows := by
  intro seen rows
  induction rows generalizing seen with
  | nil => simp [keepFirst]
  | cons r rs ih =>
      simp only [keepFirst]
      by_cases hmem : r.get? i ∈ seen
      · rw [if_pos hmem]
        exact (ih seen).cons r
      · rw [if_neg hmem]
        exact (ih (r.get? i :: seen)).cons₂ r

lemma keepFirst_spec {i : ℕ} :
    ∀ (seen : List (Option Value)) (rows : List (List Value)) (r' : List Value),
      r' ∈ keepFirst i seen rows →
        r'.get? i ∉ seen ∧
        rows.find? (fun r2 => decide (r2.get? i = r'.get? i)) = some r' := by
  intro seen rows
  induction rows generalizing seen with
  | nil => intro r' h; simp [keepFirst] at h
  | cons r rs ih =>
      intro r' h
      simp only [keepFirst] at h
      by_cases hmem : r.get? i ∈ seen
      · rw [if_pos hmem] at h
        obtain ⟨hnot, hfind⟩ := ih seen r' h
        have hne : r.get? i ≠ r'.get? i := fun e => hnot (e ▸ hmem)
        refine ⟨hnot, ?_⟩
        rw [List.find?_cons_of_neg _ (by simpa using hne)]
        exact hfind
      · rw [if_neg hmem] at h
        rcases List.mem_cons.mp h with rfl | h'
        · exact ⟨hmem, by rw [List.find?_cons_of_pos _ (by simp)]⟩
        · obtain ⟨hnot, hfind⟩ := ih (r.get? i :: seen) r' h'
          have hne : r.get? i ≠ r'.get? i := fun e => hnot (by rw [e]; exact List.mem_cons_self _ _)
          refine ⟨fun hs => hnot (List.mem_cons_of_mem _ hs), ?_⟩
          rw [List.find?_cons_of_neg _ (by simpa using hne)]
          exact hfind

lemma keepFirst_keys_nodup {i : ℕ} :
    ∀ (seen : List (Option Value)) (rows : List (List Value)),
      ((keepFirst i seen rows).map (fun r => r.get? i)).Nodup ∧
      ∀ k ∈ (keepFirst i seen rows).map (fun r => r.get? i), k ∉ seen := by
  intro seen rows
  induction rows generalizing seen with
  | nil => simp [keepFirst]
  | cons r rs ih =>
      simp only [keepFirst]
      by_cases hmem : r.get? i ∈ seen
      · rw [if_pos hmem]
        exact ih seen
      · rw [if_neg hmem]
        obtain ⟨hnd, hsn⟩ := ih (r.get? i :: seen)
        refine ⟨?_, ?_⟩
        · rw [List.map_cons, List.nodup_cons]
          refine ⟨fun hc => ?_, hnd⟩
          exact hsn _ hc (List.mem_cons_self _ _)
        · intro k hk
          rw [List.map_cons, List.mem_cons] at hk
          rcases hk with rfl | hk'
          · exact hmem
          · exact fun hs => hsn _ hk' (List.mem_cons_of_mem _ hs)

lemma keepFirst_complete {i : ℕ} :
    ∀ (seen : List (Option Value)) (rows : List (List Value)) (r : List Value),
      r ∈ rows → r.get? i ∉ seen →
        ∃ r' ∈ keepFirst i seen rows, r'.get? i = r.get? i := by
  intro seen rows
  induction rows generalizing seen with
  | nil => intro r h; simp at h
  | cons r0 rs ih =>
      intro r h hns
      simp only [keepFirst]
      by_cases hmem : r0.get? i ∈ seen
      · rw [if_pos hmem]
        rcases List.mem_cons.mp h with rfl | h'
        · exact absurd hmem hns
        · exact ih seen r h' hns
      · rw [if_neg hmem]
        by_cases heq : r.get? i = r0.get? i
        · exact ⟨r0, List.mem_cons_self _ _, heq.symm⟩
        · rcases List.mem_cons.mp h with rfl | h'
          · exact absurd rfl heq
          · have hns' : r.get? i ∉ r0.get? i :: seen := by
              intro hc
              rcases List.mem_cons.mp hc with hc' | hc'
              · exact heq hc'
              · exact hns hc'
            obtain ⟨r', hr', he⟩ := ih (r0.get? i :: seen) r h' hns'
            exact ⟨r', List.mem_cons_of_mem _ hr', he⟩

lemma preprocess_ok {df : Table} {cf : Option (List String)} {dn dd ri : Bool}
    {su : Option String} {out : Table}
    (h : preprocess_queried_dataset df cf dn dd ri su = .ok out) :
    ∃ d1 d3 : Table,
      (cf = none → d1 = df) ∧
      (∀ cs, cf = some cs → astypeFloat cs df = .ok d1) ∧
      unitFilterStep su (if dn then dropnaT d1 else d1) = .ok d3 ∧
      (if dd then dropDuplicatesStep d3 else .ok d3) = .ok out := by
  simp only [preprocess_queried_dataset] at h
  split at h
  · exact Except.noConfusion h
  · rename_i d1 hstep1
    split at h
    · exact Except.noConfusion h
    · rename_i d3 hunit
      split at h
      · exact Except.noConfusion h
      · rename_i d4 hdd
        simp only [resetIndexT, ite_self] at h
        cases h
        refine ⟨d1, d3, ?_, ?_, hunit, hdd⟩
        · intro hnone
          rw [hnone] at hstep1
          exact (Except.ok.injEq _ _ ▸ hstep1).symm
        · intro cs hsome
          rw [hsome] at hstep1
          exact hstep1

lemma unitFilterStep_ok {su : Option String} {t t' : Table}
    (h : unitFilterStep su t = .ok t') :
    t'.header = t.header ∧ List.Sublist t'.rows t.rows := by
  cases su with
  | none =>
      simp only [unitFilterStep] at h
      cases h
      exact ⟨rfl, List.Sublist.refl _⟩
  | some u =>
      simp only [unitFilterStep] at h
      by_cases hall : u = "all"
      · rw [if_pos hall] at h
        cases h
        exact ⟨rfl, List.Sublist.refl _⟩
      · rw [if_neg hall] at h
        by_cases hmem : "standard_units" ∈ t.header
        · rw [if_pos hmem] at h
          cases h
          exact ⟨rfl, List.filter_sublist _⟩
        · rw [if_neg hmem] at h
          exact Except.noConfusion h

lemma dropDuplicatesStep_ok {t t' : Table}
    (h : dropDuplicatesStep t = .ok t') :
    t'.header = t.header ∧ List.Sublist t'.rows t.rows := by
  unfold dropDuplicatesStep at h
  rcases hidx : t.header.findIdx? (fun x => x == "molecule_chembl_id") with _ | i <;>
    rw [hidx] at h
  · exact Except.noConfusion h
  · cases h
    exact ⟨rfl, keepFirst_sublist _ _⟩

lemma coerceRow_nil_idxs : ∀ (i : ℕ) (vs : List Value), coerceRow [] i vs = some vs := by
  intro i vs
  induction vs generalizing i with
  | nil => rfl
  | cons v vs ih => simp [coerceRow, ih]

lemma step1_ok {df d1 : Table} {cf : Option (List String)}
    (hnone : cf = none → d1 = df)
    (hsome : ∀ cs, cf = some cs → astypeFloat cs df = .ok d1) :
    d1.header = df.header ∧ d1.rows.length = df.rows.length ∧
    ∀ r' ∈ d1.rows, ∃ r ∈ df.rows, coerceRow (coercedIdxs cf df.header) 0 r = some r' := by
  cases cf with
  | none =>
      cases hnone rfl
      refine ⟨rfl, rfl, ?_⟩
      intro r' hr'
      exact ⟨r', hr', by simpa [coercedIdxs] using coerceRow_nil_idxs 0 r'⟩
  | some cs =>
      obtain ⟨hh, hf⟩ := astypeFloat_ok (hsome cs rfl)
      refine ⟨hh, hf.length_eq.symm, ?_⟩
      intro r' hr'
      obtain ⟨r, hr, hcr⟩ := forall₂_mem_right hf r' hr'
      exact ⟨r, hr, by simpa [coercedIdxs] using hcr⟩

lemma isMissingB_eq_false_iff (v : Value) : isMissingB v = false ↔ v ≠ Value.missing := by
  cases v <;> simp [isMissingB]

lemma mem_zipWith {g : α → β → γ} :
    ∀ {l1 : List α} {l2 : List β} {c : γ}, c ∈ List.zipWith g l1 l2 →
      ∃ a b, a ∈ l1 ∧ b ∈ l2 ∧ c = g a b := by
  intro l1
  induction l1 with
  | nil => intro l2 c h; simp at h
  | cons a as ih =>
      intro l2 c h
      cases l2 with
      | nil => simp at h
      | cons b bs =>
          rw [List.zipWith_cons_cons] at h
          rcases List.mem_cons.mp h with rfl | h'
          · exact ⟨a, b, List.mem_cons_self _ _, List.mem_cons_self _ _, rfl⟩
          · obtain ⟨a', b', ha, hb, he⟩ := ih h'
            exact ⟨a', b', List.mem_cons_of_mem _ ha, List.mem_cons_of_mem _ hb, he⟩

lemma findIdx_append_singleton_aux {c : String} :
    ∀ (l : List String) (s : ℕ), c ∉ l →
      List.findIdx? (fun x => x == c) (l ++ [c]) s = some (s + l.length) := by
  intro l
  induction l with
  | nil => intro s _; simp [List.findIdx?_cons]
  | cons a as ih =>
      intro s h
      have hne : a ≠ c := fun e => h (e ▸ List.mem_cons_self a as)
      have h' : c ∉ as := fun hm => h (List.mem_cons_of_mem _ hm)
      simp only [List.cons_append, List.findIdx?_cons, beq_iff_eq]
      rw [if_neg hne, ih (s + 1) h']
      congr 1
      simp
      omega

lemma findIdx_append_singleton {c : String} (l : List String) (h : c ∉ l) :
    (l ++ [c]).findIdx? (fun x => x == c) = some l.length := by
  have := findIdx_append_singleton_aux l 0 h
  simpa using this

/-- C2: for every input table and every combination of the Table Cleaner's
flags and arguments, the output row count is at most the input row count;
moreover each of steps 1-4 is individually non-increasing (step 1, float
coercion, preserves the row count exactly; steps 2-4 only remove rows). -/
theorem C2_cleaner_rows_monotonic :
    (∀ (cols : List String) (t t' : Table), astypeFloat cols t = .ok t' →
        t'.rows.length = t.rows.length) ∧
    (∀ t : Table, (dropnaT t).rows.length ≤ t.rows.length) ∧
    (∀ (su : Option String) (t t' : Table), unitFilterStep su t = .ok t' →
        t'.rows.length ≤ t.rows.length) ∧
    (∀ t t' : Table, dropDuplicatesStep t = .ok t' → t'.rows.length ≤ t.rows.length) ∧
    (∀ (df : Table) (cf : Option (List String)) (dn dd ri : Bool) (su : Option String)
        (out : Table), preprocess_queried_dataset df cf dn dd ri su = .ok out →
        out.rows.length ≤ df.rows.length) := by
  refine ⟨fun cols t t' h => ((astypeFloat_ok h).2.length_eq).symm,
          fun t => List.length_filter_le _ _,
          fun su t t' h => (unitFilterStep_ok h).2.length_le,
          fun t t' h => (dropDuplicatesStep_ok h).2.length_le, ?_⟩
  intro df cf dn dd ri su out h
  obtain ⟨d1, d3, hn, hs, hu, hd⟩ := preprocess_ok h
  obtain ⟨_, hlen1, _⟩ := step1_ok hn hs
  have h2 : (if dn then dropnaT d1 else d1).rows.length ≤ d1.rows.length := by
    cases dn
    · simp
    · simpa [dropnaT] using List.length_filter_le _ d1.rows
  have h3 := (unitFilterStep_ok hu).2.length_le
  have h4 : out.rows.length ≤ d3.rows.length := by
    cases dd with
    | false =>
        have : d3 = out := by simpa using hd
        rw [this]
    | true => exact (dropDuplicatesStep_ok (by simpa using hd)).2.length_le
  omega

/-- C2 witness: a concrete run of the full cleaner. -/
theorem C2_cleaner_rows_monotonic_witness :
    (Table.mk ["molecule_chembl_id"] [[Value.str "CHEMBL1"]]).rows.length ≤
      (Table.mk ["molecule_chembl_id"] [[Value.str "CHEMBL1"]]).rows.length :=
  C2_cleaner_rows_monotonic.2.2.2.2 ⟨["molecule_chembl_id"], [[Value.str "CHEMBL1"]]⟩
    none true true true none ⟨["molecule_chembl_id"], [[Value.str "CHEMBL1"]]⟩ (by decide)

/-- C5: for every input table and every combination of flags, a successful
run of the Table Cleaner keeps the column list unchanged, and every output
row comes from an input row whose cells are unchanged outside the positions
of the columns listed in `columns_to_float`. -/
theorem C5_cleaner_columns_preserved :
    ∀ (df : Table) (cf : Option (List String)) (dn dd ri : Bool) (su : Option String)
      (out : Table), preprocess_queried_dataset df cf dn dd ri su = .ok out →
      out.header = df.header ∧
      ∀ r' ∈ out.rows, ∃ r ∈ df.rows, r'.length = r.length ∧
        ∀ j : ℕ, j ∉ coercedIdxs cf df.header → r'[j]? = r[j]? := by
  intro df cf dn dd ri su out h
  obtain ⟨d1, d3, hn, hs, hu, hd⟩ := preprocess_ok h
  obtain ⟨hh1, _, hrows1⟩ := step1_ok hn hs
  obtain ⟨hh3, hsub3⟩ := unitFilterStep_ok hu
  have hh2 : (if dn then dropnaT d1 else d1).header = d1.header := by
    cases dn <;> rfl
  have hout : out.header = d3.header ∧ List.Sublist out.rows d3.rows := by
    cases dd with
    | false =>
        have : d3 = out := by simpa using hd
        rw [this]
        exact ⟨rfl, List.Sublist.refl _⟩
    | true => exact dropDuplicatesStep_ok (by simpa using hd)
  constructor
  · rw [hout.1, hh3, hh2, hh1]
  · intro r' hr'
    have h1 : r' ∈ d3.rows := hout.2.subset hr'
    have h2 : r' ∈ (if dn then dropnaT d1 else d1).rows := hsub3.subset h1
    have h3 : r' ∈ d1.rows := by
      cases dn with
      | false => exact h2
      | true =>
          simp only [if_true, dropnaT] at h2
          exact (List.filter_sublist _).subset h2
    obtain ⟨r, hr, hcr⟩ := hrows1 r' h3
    refine ⟨r, hr, coerceRow_length hcr, ?_⟩
    intro j hj
    exact coerceRow_get hcr j (by simpa using hj)

/-- C5 witness: the cleaner keeps the header of a concrete table. -/
theorem C5_cleaner_columns_preserved_witness :
    (Table.mk ["molecule_chembl_id"] [[Value.str "CHEMBL1"]]).header =
      (Table.mk ["molecule_chembl_id"] [[Value.str "CHEMBL1"]]).header :=
  (C5_cleaner_columns_preserved ⟨["molecule_chembl_id"], [[Value.str "CHEMBL1"]]⟩
    none true true true none ⟨["molecule_chembl_id"], [[Value.str "CHEMBL1"]]⟩ (by decide)).1

/-- C3: with a provided `standard_unit` other than the sentinel `"all"`,
the Table Cleaner fails with the assertion error when the table has no
`standard_units` column, and otherwise the unit-filtering step keeps
exactly the rows whose `standard_units` cell equals the given unit; with
no unit or the sentinel `"all"` the step passes the table through. -/
theorem C3_unit_filtering :
    (∀ (u : String) (t : Table), u ≠ "all" → "standard_units" ∉ t.header →
        unitFilterStep (some u) t = .error .assertionError) ∧
    (∀ (u : String) (t : Table) (dn dd ri : Bool), u ≠ "all" →
        "standard_units" ∉ t.header →
        preprocess_queried_dataset t none dn dd ri (some u) = .error .assertionError) ∧
    (∀ (u : String) (t t' : Table), u ≠ "all" → unitFilterStep (some u) t = .ok t' →
        t'.rows = t.rows.filter
          (fun r => decide (cellOf t.header r "standard_units" = some (.str u))) ∧
        ∀ r ∈ t'.rows, cellOf t.header r "standard_units" = some (.str u)) ∧
    (∀ t : Table, unitFilterStep none t = .ok t ∧ unitFilterStep (some "all") t = .ok t) := by
  have part1 : ∀ (u : String) (t : Table), u ≠ "all" → "standard_units" ∉ t.header →
      unitFilterStep (some u) t = .error .assertionError := by
    intro u t hu hm
    simp [unitFilterStep, hu, hm]
  refine ⟨part1, ?_, ?_, ?_⟩
  · intro u t dn dd ri hu hm
    have hm2 : "standard_units" ∉ (if dn then dropnaT t else t).header := by
      cases dn <;> simpa [dropnaT] using hm
    have herr := part1 u (if dn then dropnaT t else t) hu hm2
    simp only [preprocess_queried_dataset, herr]
  · intro u t t' hu h
    simp only [unitFilterStep, if_neg hu] at h
    by_cases hmem : "standard_units" ∈ t.header
    · rw [if_pos hmem] at h
      cases h
      refine ⟨rfl, ?_⟩
      intro r hr
      exact of_decide_eq_true (List.mem_filter.mp hr).2
    · rw [if_neg hmem] at h
      exact Except.noConfusion h
  · intro t
    exact ⟨rfl, by simp [unitFilterStep]⟩

/-- C3 witness: concrete failure on a table without a `standard_units`
column. -/
theorem C3_unit_filtering_witness :
    unitFilterStep (some "nM") ⟨["molecule_chembl_id"], []⟩ = .error .assertionError :=
  C3_unit_filtering.1 "nM" ⟨["molecule_chembl_id"], []⟩ (by decide) (by decide)

/-- C10: on a table that has the `molecule_structures` column but zero
rows, the Structure Flattener raises (the first-row inspection
`df.iloc[0]` fails with `IndexError`) instead of returning an empty
table. -/
theorem C10_flattener_requires_nonempty :
    ∀ t : Table, "molecule_structures" ∈ t.header → t.rows = [] →
      extract_smiles_from_molecular_representation t = .error .indexError := by
  intro t hm hrows
  obtain ⟨i, hi, _⟩ := findIdx_of_mem hm
  unfold extract_smiles_from_molecular_representation flattenCore
  rw [hi, hrows]

/-- C10 witness: the concrete empty table with the required column. -/
theorem C10_flattener_requires_nonempty_witness :
    extract_smiles_from_molecular_representation ⟨["molecule_structures"], []⟩ =
      .error .indexError :=
  C10_flattener_requires_nonempty ⟨["molecule_structures"], []⟩ (by decide) rfl

/-- C4: cleaning the three-row bioactivity table of the scenario with
`columns_to_float=["standard_value"]` and `standard_unit="nM"` yields the
single CHEMBL1 row with `standard_value = 5.0`; and in general the
deduplication step keeps, for every key value, exactly the first row (in
current order) carrying it: each survivor is what `find?` locates for its
key, surviving keys are pairwise distinct, survivors form a sublist of the
input, and every key value of the input is represented. -/
theorem C4_dedup_first_occurrence :
    (preprocess_queried_dataset
        ⟨["molecule_chembl_id", "standard_value", "standard_units"],
         [[.str "CHEMBL1", .str "5.0", .str "nM"],
          [.str "CHEMBL1", .str "7.0", .str "nM"],
          [.str "CHEMBL2", .str "3.0", .str "uM"]]⟩
        (some ["standard_value"]) true true true (some "nM") =
      .ok ⟨["molecule_chembl_id", "standard_value", "standard_units"],
           [[.str "CHEMBL1", .num 5, .str "nM"]]⟩) ∧
    (∀ (i : ℕ) (rows : List (List Value)),
      (∀ r' ∈ keepFirst i [] rows,
          rows.find? (fun r2 => decide (r2.get? i = r'.get? i)) = some r') ∧
      ((keepFirst i [] rows).map (fun r => r.get? i)).Nodup ∧
      List.Sublist (keepFirst i [] rows) rows ∧
      ∀ r ∈ rows, ∃ r' ∈ keepFirst i [] rows, r'.get? i = r.get? i) := by
  refine ⟨by decide, ?_⟩
  intro i rows
  exact ⟨fun r' h => (keepFirst_spec [] rows r' h).2,
         (keepFirst_keys_nodup [] rows).1,
         keepFirst_sublist [] rows,
         fun r hr => keepFirst_complete [] rows r hr (by simp)⟩

/-- C4 witness: first-occurrence lookup on a concrete duplicated list. -/
theorem C4_dedup_first_occurrence_witness :
    [[Value.str "CHEMBL1", Value.str "5.0"], [Value.str "CHEMBL1", Value.str "7.0"]].find?
        (fun r2 => decide (r2.get? 0 = ([Value.str "CHEMBL1", Value.str "5.0"] : List Value).get? 0))
      = some [Value.str "CHEMBL1", Value.str "5.0"] :=
  (C4_dedup_first_occurrence.2 0
      [[Value.str "CHEMBL1", Value.str "5.0"], [Value.str "CHEMBL1", Value.str "7.0"]]).1
    [Value.str "CHEMBL1", Value.str "5.0"] (by decide)

/-- C7 counterexample: a table whose row has a missing value in an
unrelated column but a perfectly good serialized structure; the flattened
row's `canonical_smiles` value is the non-missing string "CCO", yet the
final step removes the row, so the output is empty. -/
theorem C7_counterexample :
    flattenCore ⟨["other", "molecule_structures"],
        [[Value.missing, Value.str "\x7b\"canonical_smiles\": \"CCO\"\x7d"]]⟩ =
      .ok ⟨["other", "canonical_smiles"], [[Value.missing, Value.str "CCO"]]⟩ ∧
    extract_smiles_from_molecular_representation ⟨["other", "molecule_structures"],
        [[Value.missing, Value.str "\x7b\"canonical_smiles\": \"CCO\"\x7d"]]⟩ =
      .ok ⟨["other", "canonical_smiles"], []⟩ := by
  exact ⟨by decide, by decide⟩

/-- C7 amended: the rows removed by the Structure Flattener's final step
are exactly those left with a missing value in ANY column of the flattened
table, not only in the new `canonical_smiles` column. -/
theorem C7_final_dropna_any_column :
    ∀ (df mid : Table), flattenCore df = .ok mid →
      extract_smiles_from_molecular_representation df =
        .ok ⟨mid.header, mid.rows.filter (fun r => !(r.any isMissingB))⟩ ∧
      ∀ r, r ∈ mid.rows.filter (fun r => !(r.any isMissingB)) ↔
        (r ∈ mid.rows ∧ ∀ v ∈ r, v ≠ Value.missing) := by
  intro df mid h
  constructor
  · unfold extract_smiles_from_molecular_representation
    rw [h]
  · intro r
    rw [List.mem_filter]
    have hb : (!(r.any isMissingB)) = true ↔ ∀ v ∈ r, v ≠ Value.missing := by
      simp [List.any_eq_false, isMissingB_eq_false_iff]
    rw [hb]

/-- C7 witness: the amended statement at the single-column scenario
table. -/
theorem C7_final_dropna_any_column_witness :
    extract_smiles_from_molecular_representation
        ⟨["molecule_structures"], [[Value.str "\x7b\"canonical_smiles\": \"CCO\"\x7d"]]⟩ =
      .ok ⟨(Table.mk ["canonical_smiles"] [[Value.str "CCO"]]).header,
           (Table.mk ["canonical_smiles"] [[Value.str "CCO"]]).rows.filter
             (fun r => !(r.any isMissingB))⟩ :=
  (C7_final_dropna_any_column
      ⟨["molecule_structures"], [[Value.str "\x7b\"canonical_smiles\": \"CCO\"\x7d"]]⟩
      ⟨["canonical_smiles"], [[Value.str "CCO"]]⟩ (by decide)).1

/-- C9 counterexample: a cache file lacking the stray `Unnamed: 0` index
column makes the read path raise `KeyError` instead of succeeding. -/
theorem C9_counterexample :
    readCachedCsv ⟨["molecule_chembl_id"], [[Value.str "CHEMBL1"]]⟩ =
      .error (.keyError "Unnamed: 0") := by
  decide

/-- C9 amended: the cache read path succeeds exactly when the stray
`Unnamed: 0` column is present, returning the table with that column
removed; on a file without it, the unconditional drop raises `KeyError`. -/
theorem C9_cache_read_amended :
    ∀ f : Table,
      ("Unnamed: 0" ∈ f.header → readCachedCsv f = .ok (dropCol "Unnamed: 0" f)) ∧
      ("Unnamed: 0" ∉ f.header → readCachedCsv f = .error (.keyError "Unnamed: 0")) := by
  intro f
  constructor
  · intro h; simp [readCachedCsv, h]
  · intro h; simp [readCachedCsv, h]

/-- C9 witness: reading a concrete file that carries the stray column. -/
theorem C9_cache_read_amended_witness :
    readCachedCsv ⟨["Unnamed: 0", "standard_value"], [[Value.num 0, Value.str "5.0"]]⟩ =
      .ok (dropCol "Unnamed: 0"
            ⟨["Unnamed: 0", "standard_value"], [[Value.num 0, Value.str "5.0"]]⟩) :=
  (C9_cache_read_amended ⟨["Unnamed: 0", "standard_value"], [[Value.num 0, Value.str "5.0"]]⟩).1
    (by decide)

lemma flattenCore_eq {df : Table} {i : ℕ} {rows1 : List (List Value)} {smiles : List Value}
    {r0 : List Value} {rest : List (List Value)} {s0 : String}
    (hidx : df.header.findIdx? (fun h => h == "molecule_structures") = some i)
    (hrows : df.rows = r0 :: rest)
    (hs0 : r0.getD i Value.missing = Value.str s0)
    (h1 : traverseE (parseStructCell i) df.rows = .ok rows1)
    (h2 : traverseE (smilesOfRow i) rows1 = .ok smiles)
    (hcs : df.header.findIdx? (fun h => h == "canonical_smiles") = none) :
    flattenCore df = .ok (dropCol "molecule_structures"
      ⟨df.header ++ ["canonical_smiles"],
       List.zipWith (fun r v => r ++ [v]) rows1 smiles⟩) := by
  rw [hrows] at h1
  unfold flattenCore
  rw [hidx, hrows]
  simp only [hs0, h1, h2, hcs]

lemma extract_eq_of_flattenCore {df t2 : Table} (h : flattenCore df = .ok t2) :
    extract_smiles_from_molecular_representation df =
      .ok ⟨t2.header, t2.rows.filter (fun r => !(r.any isMissingB))⟩ := by
  unfold extract_smiles_from_molecular_representation
  rw [h]

/-- C6: the concrete scenario `molecule_structures = '{"canonical_smiles":
"CCO"}'` flattens to a `canonical_smiles` column holding `"CCO"` and no
`molecule_structures` column; and in general, on every non-empty
rectangular table whose `molecule_structures` cells are serialized textual
mappings carrying a `canonical_smiles` field, the Structure Flattener
succeeds, its output header is the input header with `molecule_structures`
removed and `canonical_smiles` appended (one structural column fewer, one
scalar column more), the row count does not grow, and every surviving
row's `canonical_smiles` cell is a string. -/
theorem C6_flattener_parses_and_flattens :
    (extract_smiles_from_molecular_representation
        ⟨["molecule_structures"], [[Value.str "\x7b\"canonical_smiles\": \"CCO\"\x7d"]]⟩ =
      .ok ⟨["canonical_smiles"], [[Value.str "CCO"]]⟩) ∧
    (∀ (df : Table) (i : ℕ), df.wf →
      df.header.findIdx? (fun h => h == "molecule_structures") = some i →
      "canonical_smiles" ∉ df.header →
      df.rows ≠ [] →
      (∀ r ∈ df.rows, ∃ (s : String) (entries : List (String × String)) (smi : String),
          r.getD i Value.missing = Value.str s ∧ literal_eval s = some entries ∧
          entries.lookup "canonical_smiles" = some smi) →
      ∃ out, extract_smiles_from_molecular_representation df = .ok out ∧
        out.header =
          df.header.filter (fun h => decide (h ≠ "molecule_structures")) ++
            ["canonical_smiles"] ∧
        "molecule_structures" ∉ out.header ∧
        "canonical_smiles" ∈ out.header ∧
        out.rows.length ≤ df.rows.length ∧
        ∀ r ∈ out.rows, ∃ smi : String,
          cellOf out.header r "canonical_smiles" = some (Value.str smi)) := by
  refine ⟨by decide, ?_⟩
  intro df i hwf hidx hcs hne hvals
  have hilt : i < df.header.length := (List.findIdx?_eq_some_iff_findIdx_eq.mp hidx).1
  rcases hrowsE : df.rows with _ | ⟨r0, rest⟩
  · exact absurd hrowsE hne
  obtain ⟨s0, e0, m0, hs0, _, _⟩ := hvals r0 (hrowsE ▸ List.mem_cons_self r0 rest)
  have hparse : ∀ r ∈ df.rows, ∃ b, parseStructCell i r = .ok b := by
    intro r hr
    obtain ⟨s, entries, smi, hs, hle, _⟩ := hvals r hr
    refine ⟨r.set i (.dict entries), ?_⟩
    unfold parseStructCell
    rw [hs]
    simp only [hle]
  obtain ⟨rows1, hrows1⟩ := traverseE_ok_of_forall hparse
  have hfa1 := traverseE_ok hrows1
  have hb : ∀ b ∈ rows1, ∃ (entries : List (String × String)) (smi : String),
      b.getD i Value.missing = Value.dict entries ∧
      entries.lookup "canonical_smiles" = some smi ∧
      b.length = df.header.length := by
    intro b hbmem
    obtain ⟨r, hrmem, hpr⟩ := forall₂_mem_right hfa1 b hbmem
    obtain ⟨s, entries, smi, hs, hle, hlk⟩ := hvals r hrmem
    have hps : parseStructCell i r = .ok (r.set i (.dict entries)) := by
      unfold parseStructCell
      rw [hs]
      simp only [hle]
    rw [hpr] at hps
    have hb_eq : b = r.set i (.dict entries) := Except.ok.inj hps
    have hrlen : r.length = df.header.length := hwf r hrmem
    have hilt' : i < r.length := by rw [hrlen]; exact hilt
    refine ⟨entries, smi, ?_, hlk, by rw [hb_eq]; simp [hrlen]⟩
    rw [hb_eq]
    simp [List.getD_eq_getElem?_getD, List.getElem?_set_self, hilt']
  have hsm : ∀ b ∈ rows1, ∃ v, smilesOfRow i b = .ok v := by
    intro b hb0
    obtain ⟨entries, smi, hget, hlk, _⟩ := hb b hb0
    refine ⟨.str smi, ?_⟩
    unfold smilesOfRow
    rw [hget]
    simp only [hlk]
  obtain ⟨smiles, hsmiles⟩ := traverseE_ok_of_forall hsm
  have hfa2 := traverseE_ok hsmiles
  have hsmstr : ∀ v ∈ smiles, ∃ smi : String, v = Value.str smi := by
    intro v hv
    obtain ⟨b, hbm, hpr⟩ := forall₂_mem_right hfa2 v hv
    obtain ⟨entries, smi, hget, hlk, _⟩ := hb b hbm
    have hv2 : smilesOfRow i b = .ok (Value.str smi) := by
      unfold smilesOfRow
      rw [hget]
      simp only [hlk]
    rw [hpr] at hv2
    exact ⟨smi, Except.ok.inj hv2⟩
  have hcsnone : df.header.findIdx? (fun h => h == "canonical_smiles") = none :=
    findIdx_none_of_not_mem hcs
  have hflat := flattenCore_eq hidx hrowsE hs0 hrows1 hsmiles hcsnone
  have hext := extract_eq_of_flattenCore hflat
  have hsingle : (["canonical_smiles"] : List String).filter
      (fun h => decide (h ≠ "molecule_structures")) = ["canonical_smiles"] := by decide
  have hsplit : (df.header ++ ["canonical_smiles"]).filter
        (fun h => decide (h ≠ "molecule_structures")) =
      df.header.filter (fun h => decide (h ≠ "molecule_structures")) ++
        ["canonical_smiles"] := by
    rw [List.filter_append, hsingle]
  have hXh : (dropCol "molecule_structures"
      ⟨df.header ++ ["canonical_smiles"],
       List.zipWith (fun r v => r ++ [v]) rows1 smiles⟩).header =
      df.header.filter (fun h => decide (h ≠ "molecule_structures")) ++
        ["canonical_smiles"] := hsplit
  rw [hXh] at hext
  refine ⟨_, hext, rfl, ?_, ?_, ?_, ?_⟩
  · intro hcontra
    rcases List.mem_append.mp hcontra with hA | hB
    · exact absurd (List.mem_filter.mp hA).2 (by simp)
    · exact absurd (List.mem_singleton.mp hB) (by decide)
  · exact List.mem_append.mpr (Or.inr (List.mem_singleton.mpr rfl))
  · calc ((dropCol "molecule_structures"
          ⟨df.header ++ ["canonical_smiles"],
           List.zipWith (fun r v => r ++ [v]) rows1 smiles⟩).rows.filter
            (fun r => !(r.any isMissingB))).length
        ≤ (dropCol "molecule_structures"
            ⟨df.header ++ ["canonical_smiles"],
             List.zipWith (fun r v => r ++ [v]) rows1 smiles⟩).rows.length :=
          List.length_filter_le _ _
      _ = (List.zipWith (fun (r : List Value) (v : Value) => r ++ [v]) rows1 smiles).length := by
          simp [dropCol]
      _ ≤ rows1.length := by
          rw [List.length_zipWith]
          exact Nat.min_le_left _ _
      _ = df.rows.length := hfa1.length_eq.symm
      _ = (r0 :: rest).length := by rw [hrowsE]
  · intro r hr
    have hr1 : r ∈ (dropCol "molecule_structures"
        ⟨df.header ++ ["canonical_smiles"],
         List.zipWith (fun r v => r ++ [v]) rows1 smiles⟩).rows :=
      (List.filter_sublist _).subset hr
    simp only [dropCol, List.mem_map] at hr1
    obtain ⟨z, hz, hzr⟩ := hr1
    obtain ⟨b, v, hbm, hvm, hzeq⟩ := mem_zipWith hz
    obtain ⟨smi, hvsmi⟩ := hsmstr v hvm
    subst hvsmi
    obtain ⟨e2, s2, _, _, hlen2⟩ := hb b hbm
    have hdropsingle : dropCells "molecule_structures" ["canonical_smiles"]
        [Value.str smi] = [Value.str smi] := by
      simp only [dropCells]
      rw [if_neg (by decide)]
    have hrform : r = dropCells "molecule_structures" df.header b ++ [Value.str smi] := by
      rw [← hzr, hzeq]
      rw [dropCells_append df.header b ["canonical_smiles"] [Value.str smi] hlen2]
      rw [hdropsingle]
    have hcsF : "canonical_smiles" ∉
        df.header.filter (fun h => decide (h ≠ "molecule_structures")) := by
      intro hcontra
      exact hcs (List.mem_of_mem_filter hcontra)
    refine ⟨smi, ?_⟩
    unfold cellOf
    rw [findIdx_append_singleton _ hcsF]
    show r.get? (df.header.filter (fun h => decide (h ≠ "molecule_structures"))).length =
      some (Value.str smi)
    have hAlen : (dropCells "molecule_structures" df.header b).length =
        (df.header.filter (fun h => decide (h ≠ "molecule_structures"))).length :=
      dropCells_length df.header b hlen2
    rw [hrform, List.get?_eq_getElem?, ← hAlen]
    exact List.getElem?_concat_length _ _

/-- C6 witness: the general flattener statement applied to the concrete
scenario table. -/
theorem C6_flattener_parses_and_flattens_witness :
    ∃ out, extract_smiles_from_molecular_representation
        ⟨["molecule_structures"], [[Value.str "\x7b\"canonical_smiles\": \"CCO\"\x7d"]]⟩ =
        .ok out ∧
      out.header = (["molecule_structures"] : List String).filter
          (fun h => decide (h ≠ "molecule_structures")) ++ ["canonical_smiles"] ∧
      "molecule_structures" ∉ out.header ∧
      "canonical_smiles" ∈ out.header ∧
      out.rows.length ≤ (Table.mk ["molecule_structures"]
          [[Value.str "\x7b\"canonical_smiles\": \"CCO\"\x7d"]]).rows.length ∧
      ∀ r ∈ out.rows, ∃ smi : String,
        cellOf out.header r "canonical_smiles" = some (Value.str smi) := by
  apply C6_flattener_parses_and_flattens.2
    ⟨["molecule_structures"], [[Value.str "\x7b\"canonical_smiles\": \"CCO\"\x7d"]]⟩ 0
  · decide
  · rfl
  · decide
  · decide
  · intro r hr
    have hre : r = [Value.str "\x7b\"canonical_smiles\": \"CCO\"\x7d"] := by
      simpa using hr
    subst hre
    exact ⟨"\x7b\"canonical_smiles\": \"CCO\"\x7d", [("canonical_smiles", "CCO")], "CCO",
           rfl, by decide, by decide⟩

lemma filter_key_len {κ β : Type} [DecidableEq κ] (fr : β → κ) :
    ∀ R : List β, (R.map fr).Nodup → ∀ k : κ,
      (R.filter (fun b => decide (fr b = k))).length = if k ∈ R.map fr then 1 else 0 := by
  intro R
  induction R with
  | nil => intro _ k; simp
  | cons b R ih =>
      intro hnd k
      rw [List.map_cons, List.nodup_cons] at hnd
      obtain ⟨hnotin, hnd'⟩ := hnd
      by_cases hk : fr b = k
      · rw [List.filter_cons_of_pos (by simpa using hk)]
        have hzero : R.filter (fun b2 => decide (fr b2 = k)) = [] := by
          rw [List.filter_eq_nil_iff]
          intro a ha
          simp only [decide_eq_true_eq]
          intro he
          exact hnotin (by rw [hk, ← he]; exact List.mem_map_of_mem fr ha)
        rw [hzero, List.map_cons,
            if_pos (by rw [← hk]; exact List.mem_cons_self _ _)]
        rfl
      · rw [List.filter_cons_of_neg (by simpa using hk), ih hnd' k, List.map_cons]
        by_cases hkR : k ∈ R.map fr
        · rw [if_pos hkR, if_pos (List.mem_cons_of_mem _ hkR)]
        · rw [if_neg hkR, if_neg ?_]
          intro hc
          rcases List.mem_cons.mp hc with he | hm
          · exact hk he.symm
          · exact hkR hm

lemma flatMap_filter_len {α β κ γ : Type} [DecidableEq κ] (f : α → κ) (fr : β → κ)
    (g : α → β → γ) :
    ∀ (L : List α) (R : List β), (R.map fr).Nodup →
      (L.flatMap (fun a => (R.filter (fun b => decide (fr b = f a))).map (g a))).length =
        (L.filter (fun a => decide (f a ∈ R.map fr))).length := by
  intro L R hnd
  induction L with
  | nil => simp
  | cons a L ih =>
      rw [List.flatMap_cons, List.length_append, ih, List.length_map,
          filter_key_len fr R hnd (f a)]
      by_cases hm : f a ∈ R.map fr
      · rw [if_pos hm, List.filter_cons_of_pos (by simpa using hm), List.length_cons]
        omega
      · rw [if_neg hm, List.filter_cons_of_neg (by simpa using hm)]
        omega

lemma filter_mem_len_le {α κ : Type} [DecidableEq κ] (f : α → κ) (L : List α) (S : List κ)
    (hL : (L.map f).Nodup) :
    (L.filter (fun a => decide (f a ∈ S))).length ≤ S.length := by
  have h1 : ((L.filter (fun a => decide (f a ∈ S))).map f).Nodup :=
    hL.sublist ((List.filter_sublist _).map f)
  have h2 : (L.filter (fun a => decide (f a ∈ S))).map f ⊆ S := by
    intro k hk
    rw [List.mem_map] at hk
    obtain ⟨a, ha, hfa⟩ := hk
    rw [← hfa]
    exact of_decide_eq_true (List.mem_filter.mp ha).2
  calc (L.filter (fun a => decide (f a ∈ S))).length
      = ((L.filter (fun a => decide (f a ∈ S))).map f).length := (List.length_map _ _).symm
    _ ≤ S.length := (List.subperm_of_subset h1 h2).length_le

lemma merge_rows_le_left {α β κ γ : Type} [DecidableEq κ] (f : α → κ) (fr : β → κ)
    (g : α → β → γ) (L : List α) (R : List β) (hnd : (R.map fr).Nodup) :
    (L.flatMap (fun a => (R.filter (fun b => decide (fr b = f a))).map (g a))).length ≤
      L.length := by
  rw [flatMap_filter_len f fr g L R hnd]
  exact List.length_filter_le _ _

lemma merge_rows_le_right {α β κ γ : Type} [DecidableEq κ] (f : α → κ) (fr : β → κ)
    (g : α → β → γ) (L : List α) (R : List β) (hnd : (R.map fr).Nodup)
    (hL : (L.map f).Nodup) :
    (L.flatMap (fun a => (R.filter (fun b => decide (fr b = f a))).map (g a))).length ≤
      R.length := by
  rw [flatMap_filter_len f fr g L R hnd]
  exact le_trans (filter_mem_len_le f L (R.map fr) hL) (List.length_map _ _).le

lemma projectCols_ok {cs : List String} {t : Table} (h : ∀ c ∈ cs, c ∈ t.header) :
    projectCols cs t = .ok ⟨cs, t.rows.map
      (fun r => cs.map (fun c => (cellOf t.header r c).getD Value.missing))⟩ := by
  have hall : cs.all (fun c => t.header.contains c) = true := by
    rw [List.all_eq_true]
    intro c hc
    exact List.elem_eq_true_of_mem (h c hc)
  unfold projectCols
  rw [if_pos hall]

lemma pd_merge_ok (l r : Table) (key : String) (h1 : key ∈ l.header) (h2 : key ∈ r.header) :
    pd_merge l r key = .ok
      ⟨l.header ++ r.header.filter (fun c => decide (c ≠ key)),
       l.rows.flatMap (fun lr =>
         (r.rows.filter (fun rr =>
           decide (cellOf r.header rr key = cellOf l.header lr key))).map
           (fun rr => lr ++ dropCells key r.header rr))⟩ := by
  unfold pd_merge
  rw [if_pos ⟨h1, h2⟩]

/-- C1: given a cleaned bioactivity table and a cleaned, flattened
compound table with unique `molecule_chembl_id` values, the orchestrator's
merge step succeeds; the merged header is exactly the compound columns
plus `standard_value` and `standard_units`; every merged row is the
concatenation of the three projected cells of a bioactivity row and the
non-key cells of a compound row with the same `molecule_chembl_id` (so no
row is invented and each key appears in both sources); and the merged row
count is at most the minimum of the two input row counts. -/
theorem C1_merge_guarantees :
    ∀ (bio comp : Table), bio.wf →
      "molecule_chembl_id" ∈ bio.header → "standard_value" ∈ bio.header →
      "standard_units" ∈ bio.header →
      "molecule_chembl_id" ∈ comp.header →
      "standard_value" ∉ comp.header → "standard_units" ∉ comp.header →
      (bio.rows.map (fun r => cellOf bio.header r "molecule_chembl_id")).Nodup →
      (comp.rows.map (fun r => cellOf comp.header r "molecule_chembl_id")).Nodup →
      ∃ out, mergeStep bio comp = .ok out ∧
        (∀ c, c ∈ out.header ↔
          (c ∈ comp.header ∨ c = "standard_value" ∨ c = "standard_units")) ∧
        (∀ r ∈ out.rows, ∃ rb ∈ bio.rows, ∃ rc ∈ comp.rows,
          cellOf comp.header rc "molecule_chembl_id" =
            some ((cellOf bio.header rb "molecule_chembl_id").getD Value.missing) ∧
          r = ["molecule_chembl_id", "standard_value", "standard_units"].map
                (fun c => (cellOf bio.header rb c).getD Value.missing) ++
              dropCells "molecule_chembl_id" comp.header rc) ∧
        out.rows.length ≤ min bio.rows.length comp.rows.length := by
  intro bio comp hwfb hb1 hb2 hb3 hc1 hc2 hc3 hub huc
  have hmem3 : ∀ c ∈ (["molecule_chembl_id", "standard_value", "standard_units"] : List String),
      c ∈ bio.header := by
    intro c hc
    simp only [List.mem_cons, List.not_mem_nil, or_false] at hc
    rcases hc with rfl | rfl | rfl
    · exact hb1
    · exact hb2
    · exact hb3
  have hproj := projectCols_ok hmem3
  have hpm := pd_merge_ok
      ⟨["molecule_chembl_id", "standard_value", "standard_units"],
       bio.rows.map (fun r => ["molecule_chembl_id", "standard_value", "standard_units"].map
         (fun c => (cellOf bio.header r c).getD Value.missing))⟩
      comp "molecule_chembl_id" (List.mem_cons_self _ _) hc1
  have hckey : ∀ rb : List Value,
      cellOf ["molecule_chembl_id", "standard_value", "standard_units"]
        (["molecule_chembl_id", "standard_value", "standard_units"].map
          (fun c => (cellOf bio.header rb c).getD Value.missing)) "molecule_chembl_id" =
      some ((cellOf bio.header rb "molecule_chembl_id").getD Value.missing) := by
    intro rb
    rfl
  have hms : mergeStep bio comp = .ok
      ⟨["molecule_chembl_id", "standard_value", "standard_units"] ++
         comp.header.filter (fun c => decide (c ≠ "molecule_chembl_id")),
       (bio.rows.map (fun r => ["molecule_chembl_id", "standard_value", "standard_units"].map
           (fun c => (cellOf bio.header r c).getD Value.missing))).flatMap (fun lr =>
         (comp.rows.filter (fun rr =>
           decide (cellOf comp.header rr "molecule_chembl_id" =
             cellOf ["molecule_chembl_id", "standard_value", "standard_units"] lr
               "molecule_chembl_id"))).map
           (fun rr => lr ++ dropCells "molecule_chembl_id" comp.header rr))⟩ := by
    simp only [mergeStep, hproj, hpm, resetIndexT]
  refine ⟨_, hms, ?_, ?_, ?_⟩
  · intro c
    simp only [List.mem_append, List.mem_filter, List.mem_cons, List.mem_singleton,
               decide_eq_true_eq, List.not_mem_nil, or_false]
    constructor
    · rintro ((rfl | rfl | rfl) | ⟨hcm, _⟩)
      · exact Or.inl hc1
      · exact Or.inr (Or.inl rfl)
      · exact Or.inr (Or.inr rfl)
      · exact Or.inl hcm
    · rintro (hcm | rfl | rfl)
      · by_cases hck : c = "molecule_chembl_id"
        · exact Or.inl (Or.inl hck)
        · exact Or.inr ⟨hcm, hck⟩
      · exact Or.inl (Or.inr (Or.inl rfl))
      · exact Or.inl (Or.inr (Or.inr rfl))
  · intro r hr
    rw [List.mem_flatMap] at hr
    obtain ⟨lr, hlrm, hrin⟩ := hr
    rw [List.mem_map] at hrin
    obtain ⟨rr, hrrm, hreq⟩ := hrin
    rw [List.mem_filter] at hrrm
    obtain ⟨hrcm, hkeyeq⟩ := hrrm
    rw [List.mem_map] at hlrm
    obtain ⟨rb, hrbm, hlr_eq⟩ := hlrm
    refine ⟨rb, hrbm, rr, hrcm, ?_, ?_⟩
    · have hthis := of_decide_eq_true hkeyeq
      rw [← hlr_eq] at hthis
      rw [hthis, hckey rb]
    · rw [← hreq, ← hlr_eq]
  · have hsome : ∀ r ∈ bio.rows, (cellOf bio.header r "molecule_chembl_id").isSome := by
      intro r hr
      obtain ⟨i, hi, hlt⟩ := findIdx_of_mem hb1
      unfold cellOf
      rw [hi]
      show (r.get? i).isSome = true
      rw [List.get?_eq_getElem?]
      have hlt' : i < r.length := by rw [hwfb r hr]; exact hlt
      simp [hlt']
    have hmapeq : bio.rows.map (fun r =>
        some ((cellOf bio.header r "molecule_chembl_id").getD Value.missing)) =
        bio.rows.map (fun r => cellOf bio.header r "molecule_chembl_id") := by
      refine List.map_congr_left ?_
      intro r hr
      rcases hcell : cellOf bio.header r "molecule_chembl_id" with _ | v
      · have hsm := hsome r hr
        rw [hcell] at hsm
        simp at hsm
      · simp
    have hLnodup : (((bio.rows.map
        (fun r => ["molecule_chembl_id", "standard_value", "standard_units"].map
          (fun c => (cellOf bio.header r c).getD Value.missing))).map
        (fun lr => cellOf ["molecule_chembl_id", "standard_value", "standard_units"] lr
          "molecule_chembl_id"))).Nodup := by
      rw [List.map_map]
      have hcomp : bio.rows.map
          ((fun lr => cellOf ["molecule_chembl_id", "standard_value", "standard_units"] lr
            "molecule_chembl_id") ∘
           (fun r => ["molecule_chembl_id", "standard_value", "standard_units"].map
             (fun c => (cellOf bio.header r c).getD Value.missing))) =
          bio.rows.map (fun r => cellOf bio.header r "molecule_chembl_id") :=
        (List.map_congr_left (fun r _ => hckey r)).trans hmapeq
      rw [hcomp]
      exact hub
    refine le_min ?_ ?_
    · have h := merge_rows_le_left
          (fun lr : List Value =>
            cellOf ["molecule_chembl_id", "standard_value", "standard_units"] lr
              "molecule_chembl_id")
          (fun rr : List Value => cellOf comp.header rr "molecule_chembl_id")
          (fun lr rr => lr ++ dropCells "molecule_chembl_id" comp.header rr)
          (bio.rows.map (fun r => ["molecule_chembl_id", "standard_value", "standard_units"].map
            (fun c => (cellOf bio.header r c).getD Value.missing)))
          comp.rows huc
      exact le_trans h (List.length_map _ _).le
    · exact merge_rows_le_right
        (fun lr : List Value =>
          cellOf ["molecule_chembl_id", "standard_value", "standard_units"] lr
            "molecule_chembl_id")
        (fun rr : List Value => cellOf comp.header rr "molecule_chembl_id")
        (fun lr rr => lr ++ dropCells "molecule_chembl_id" comp.header rr)
        (bio.rows.map (fun r => ["molecule_chembl_id", "standard_value", "standard_units"].map
          (fun c => (cellOf bio.header r c).getD Value.missing)))
        comp.rows huc hLnodup

/-- C1 witness: the merge-step guarantees at a concrete one-row
bioactivity table and one-row compound table. -/
theorem C1_merge_guarantees_witness :
    ∃ out, mergeStep
        ⟨["molecule_chembl_id", "standard_value", "standard_units"],
         [[Value.str "CHEMBL1", Value.num 5, Value.str "nM"]]⟩
        ⟨["molecule_chembl_id", "canonical_smiles"],
         [[Value.str "CHEMBL1", Value.str "CCO"]]⟩ = .ok out ∧
      (∀ c, c ∈ out.header ↔
        (c ∈ (Table.mk ["molecule_chembl_id", "canonical_smiles"]
              [[Value.str "CHEMBL1", Value.str "CCO"]]).header ∨
          c = "standard_value" ∨ c = "standard_units")) ∧
      (∀ r ∈ out.rows, ∃ rb ∈ (Table.mk ["molecule_chembl_id", "standard_value",
          "standard_units"] [[Value.str "CHEMBL1", Value.num 5, Value.str "nM"]]).rows,
        ∃ rc ∈ (Table.mk ["molecule_chembl_id", "canonical_smiles"]
            [[Value.str "CHEMBL1", Value.str "CCO"]]).rows,
        cellOf (Table.mk ["molecule_chembl_id", "canonical_smiles"]
            [[Value.str "CHEMBL1", Value.str "CCO"]]).header rc "molecule_chembl_id" =
          some ((cellOf (Table.mk ["molecule_chembl_id", "standard_value", "standard_units"]
              [[Value.str "CHEMBL1", Value.num 5, Value.str "nM"]]).header rb
              "molecule_chembl_id").getD Value.missing) ∧
        r = ["molecule_chembl_id", "standard_value", "standard_units"].map
              (fun c => (cellOf (Table.mk ["molecule_chembl_id", "standard_value",
                "standard_units"] [[Value.str "CHEMBL1", Value.num 5, Value.str "nM"]]).header
                rb c).getD Value.missing) ++
            dropCells "molecule_chembl_id" (Table.mk ["molecule_chembl_id",
              "canonical_smiles"] [[Value.str "CHEMBL1", Value.str "CCO"]]).header rc) ∧
      out.rows.length ≤ min (Table.mk ["molecule_chembl_id", "standard_value",
          "standard_units"] [[Value.str "CHEMBL1", Value.num 5, Value.str "nM"]]).rows.length
        (Table.mk ["molecule_chembl_id", "canonical_smiles"]
          [[Value.str "CHEMBL1", Value.str "CCO"]]).rows.length :=
  C1_merge_guarantees
    ⟨["molecule_chembl_id", "standard_value", "standard_units"],
     [[Value.str "CHEMBL1", Value.num 5, Value.str "nM"]]⟩
    ⟨["molecule_chembl_id", "canonical_smiles"], [[Value.str "CHEMBL1", Value.str "CCO"]]⟩
    (by decide) (by decide) (by decide) (by decide) (by decide) (by decide) (by decide)
    (by decide) (by decide)
